import Mathlib

/-!
A verification model of the `os-find` utility (src/main.cpp).

The program walks a directory tree with raw `getdents64` calls, filters
regular files against criteria set on the command line (`-inum`, `-name`,
`-size`, `-nlinks`), collects matching paths into a global `results`
vector, and finally prints them or hands them to `execv`.

The shallow embedding below mirrors the source:
* `SizeMode`, `Args` model the enum and the global configuration
  variables (main.cpp:18-23, 35-41).
* `matches` models the filter (main.cpp:49-102).  System-call effects
  are made explicit: the outcome of `openat`/`fstat` for the entry is an
  input (`FileMeta`), and the returned `MatchResult` records the decision,
  the error lines printed, and how many file descriptors opened by the
  call are still open when it returns (`openFds`).
* `Ents` models one decoded directory stream; a directory entry of type
  `DT_DIR` carries the outcome of opening it (`canOpen`), whether a later
  `getdents64` on it fails (`readError`, the error return happens after
  the listed entries were yielded), and its own stream.  Entries of any
  other type (`DT_LNK`, devices, ...) carry the subtree they may point at,
  which the walker never opens.
* `visit` models the tree walker (main.cpp:104-143), returning the
  matched paths and the error lines in print order.
* `stoi`/`stoul` model the C++ conversions on the argument forms the
  program meets (optional sign followed by a longest digit prefix, with
  the `int` respectively `unsigned long` range checks; leading
  whitespace and base prefixes are not modelled).
* `set_args`, `main` model argument parsing and the driver
  (main.cpp:149-262).  `main` returns `none` when the program exits
  before `visit` runs (parse failure or unopenable root) and
  `some results` otherwise.
-/

namespace OsFind

/-- Size comparison mode (the enum at main.cpp:18-23). -/
inductive SizeMode where
  | NONE : SizeMode
  | LESS : SizeMode
  | EQUAL : SizeMode
  | GREATER : SizeMode
deriving DecidableEq, Repr

/-- The two fields of `struct stat` the program reads (main.cpp:83-97). -/
structure FileStat where
  st_size : Int
  st_nlink : Nat
deriving DecidableEq, Repr

/-- Outcome of the `openat` + `fstat` sequence for one entry:
`canOpen` is whether `openat` (main.cpp:65) succeeds, `fstatResult` is
`some stats` when `fstat` (main.cpp:73) succeeds. -/
structure FileMeta where
  canOpen : Bool
  fstatResult : Option FileStat
deriving DecidableEq, Repr

/-- The global filter configuration (main.cpp:35-41), written once by
`set_args` before the walk. -/
structure Args where
  inode_target : Nat
  name_target : String
  size_mode : SizeMode
  size_target : Int
  nlinks_target : Nat
  exec_target : String
deriving DecidableEq, Repr

/-- The zero-initialised state of the globals at program start. -/
def initArgs : Args := ⟨0, "", SizeMode.NONE, 0, 0, ""⟩

/-- What one call of `matches` produces: its boolean return value, the
number of file descriptors it opened and left open at return, and the
error lines it printed. -/
structure MatchResult where
  result : Bool
  openFds : Nat
  errors : List String
deriving DecidableEq, Repr

/-- The size `switch` at main.cpp:80-94: `true` when the check makes
`matches` return `false`.  The `NONE` row corresponds to not entering
the surrounding `if (size_mode != SizeMode::NONE)`. -/
def sizeReject : SizeMode → Int → Int → Bool
  | SizeMode.NONE, _, _ => false
  | SizeMode.LESS, size_target, st_size => decide (st_size > size_target)
  | SizeMode.EQUAL, size_target, st_size => decide (st_size ≠ size_target)
  | SizeMode.GREATER, size_target, st_size => decide (st_size < size_target)

/-- The filter `matches` (main.cpp:49-102).  `d_ino`/`d_name` are the
entry's fields, `meta` the outcome the kernel would give for the
`openat`/`fstat` sequence on it, `dir_path` the enclosing directory path
used in error messages.  The source never calls `close` on the
descriptor obtained at main.cpp:65, so `openFds` stays `1` on every
path that runs after a successful open. -/
def matchesEntry (c : Args) (d_ino : Nat) (d_name : String) (meta : FileMeta)
    (dir_path : String) : MatchResult :=
  if c.inode_target ≠ 0 ∧ d_ino ≠ c.inode_target then ⟨false, 0, []⟩
  else if c.name_target ≠ "" ∧ d_name ≠ c.name_target then ⟨false, 0, []⟩
  else if c.size_mode = SizeMode.NONE ∧ c.nlinks_target = 0 then ⟨true, 0, []⟩
  else if meta.canOpen = false then
    ⟨false, 0, ["Error opening file at " ++ dir_path ++ d_name]⟩
  else
    match meta.fstatResult with
    | none => ⟨false, 1, ["Error reading stats of file at " ++ dir_path ++ d_name]⟩
    | some stats =>
      if sizeReject c.size_mode c.size_target stats.st_size then ⟨false, 1, []⟩
      else if c.nlinks_target ≠ 0 ∧ c.nlinks_target ≠ stats.st_nlink then ⟨false, 1, []⟩
      else ⟨true, 1, []⟩

/-- One decoded directory stream (the sequence of `linux_dirent64`
records the `getdents64` loop at main.cpp:107-142 yields), with the
kernel outcomes attached where the walker would perform a call:
* `consFile`: an entry with `d_type == DT_REG`;
* `consDir`: an entry with `d_type == DT_DIR`, with whether
  `openat(..., O_DIRECTORY)` on it succeeds, whether a later
  `getdents64` on it returns `-1` (after yielding `sub`), and its stream;
* `consOther`: an entry of any other `d_type`; `sub` is whatever the
  entry points at (e.g. a symlink target), which the walker never opens. -/
inductive Ents where
  | nil : Ents
  | consFile (d_ino : Nat) (d_name : String) (meta : FileMeta) (rest : Ents) : Ents
  | consDir (d_ino : Nat) (d_name : String) (canOpen readError : Bool)
      (sub : Ents) (rest : Ents) : Ents
  | consOther (d_ino : Nat) (d_name : String) (sub : Ents) (rest : Ents) : Ents
deriving DecidableEq, Repr

/-- The recursive walker `visit` (main.cpp:104-143).  Returns the pair
(paths appended to `results`, error lines printed), each in order.
The `"."`/`".."` test happens before the type dispatch (main.cpp:123);
entries that are neither regular files nor directories fall through the
`if`/`else if` chain with no effect.  A subdirectory whose later
`getdents64` fails still contributes the entries it yielded first; its
error line is printed after them (main.cpp:110-113). -/
def visit (c : Args) (path : String) : Ents → List String × List String
  | Ents.nil => ([], [])
  | Ents.consFile ino name meta rest =>
    if name = "." ∨ name = ".." then visit c path rest
    else
      let m := matchesEntry c ino name meta path
      let r := visit c path rest
      ((if m.result then [path ++ name] else []) ++ r.1, m.errors ++ r.2)
  | Ents.consDir _ name canOp rErr sub rest =>
    if name = "." ∨ name = ".." then visit c path rest
    else if canOp then
      let rs := visit c (path ++ name ++ "/") sub
      let rr := visit c path rest
      (rs.1 ++ rr.1,
        (rs.2 ++ (if rErr then ["Error reading contents of " ++ (path ++ name ++ "/")] else []))
          ++ rr.2)
    else
      let rr := visit c path rest
      (rr.1, ("Error reading contents of " ++ (path ++ name ++ "/")) :: rr.2)
  | Ents.consOther _ _ _ rest => visit c path rest

/-- A regular file reachable from a stream: the names of the
subdirectories on the way down (each openable and not a pseudo-entry),
and the file entry's fields. -/
structure PFile where
  dirs : List String
  ino : Nat
  name : String
  meta : FileMeta
deriving DecidableEq, Repr

/-- `dirsStr [a, b] = "a/b/"`: the relative directory prefix built by
the recursion `path + name + "/"` at main.cpp:136. -/
def dirsStr : List String → String
  | [] => ""
  | d :: ds => d ++ "/" ++ dirsStr ds

/-- The decision of `matches` for a reachable file.  (The decision does
not depend on the directory path, which only feeds error messages.) -/
def matchesResult (c : Args) (pf : PFile) : Bool :=
  (matchesEntry c pf.ino pf.name pf.meta "").result

/-- All regular files reachable from a stream, in the order the walker
meets them: stream order, with a subdirectory's files listed in full at
the point its entry appears. -/
def preFiles : Ents → List PFile
  | Ents.nil => []
  | Ents.consFile ino name meta rest =>
    (if name = "." ∨ name = ".." then [] else [⟨[], ino, name, meta⟩]) ++ preFiles rest
  | Ents.consDir _ name canOp _ sub rest =>
    (if name = "." ∨ name = ".." then []
     else if canOp then (preFiles sub).map (fun pf => ⟨name :: pf.dirs, pf.ino, pf.name, pf.meta⟩)
     else []) ++ preFiles rest
  | Ents.consOther _ _ _ rest => preFiles rest

/-- The check `argv[i][0] == '-'` at main.cpp:154 (an empty C++ string
yields `'\0'` there, hence `false`). -/
def isFlag (s : String) : Bool :=
  match s.toList with
  | '-' :: _ => true
  | _ => false

/-- The `switch (argv[i+1][0])` at main.cpp:184-197: the size mode a
leading `'-'`/`'='`/`'+'` selects, `none` when no mode character is
present (`mode_specified == false`). -/
def modeChar (v : String) : Option SizeMode :=
  match v.toList with
  | '-' :: _ => some SizeMode.LESS
  | '=' :: _ => some SizeMode.EQUAL
  | '+' :: _ => some SizeMode.GREATER
  | _ => none

/-- Value of the longest leading digit run; `none` when the text does
not start with a digit (then the C++ conversion throws
`std::invalid_argument`). -/
def leadDigits (cs : List Char) : Option Nat :=
  match cs.takeWhile Char.isDigit with
  | [] => none
  | ds => some (ds.foldl (fun a c => a * 10 + (c.toNat - 48)) 0)

/-- `std::stoi` on the argument forms the program meets: optional sign,
longest digit prefix, `int` range check (`std::out_of_range` is a
`std::logic_error`, so overflow is caught like a parse failure). -/
def stoi (s : String) : Option Int :=
  match s.toList with
  | '-' :: cs => (leadDigits cs).bind (fun n => if n ≤ 2147483648 then some (-(n : Int)) else none)
  | '+' :: cs => (leadDigits cs).bind (fun n => if n ≤ 2147483647 then some ((n : Int)) else none)
  | _ => (leadDigits s.toList).bind (fun n => if n ≤ 2147483647 then some ((n : Int)) else none)

/-- `std::stoul` likewise: optional sign, longest digit prefix,
`unsigned long` range check, negative input wrapping modulo `2^64`. -/
def stoul (s : String) : Option Nat :=
  match s.toList with
  | '-' :: cs => (leadDigits cs).bind
      (fun n => if n < 18446744073709551616 then some ((18446744073709551616 - n) % 18446744073709551616) else none)
  | '+' :: cs => (leadDigits cs).bind (fun n => if n < 18446744073709551616 then some n else none)
  | _ => (leadDigits s.toList).bind (fun n => if n < 18446744073709551616 then some n else none)

/-- The argument loop of `set_args` (main.cpp:153-236), over the
arguments from index 1 on.  `hasDir`/`dirPos` track the positional
directory argument, `i` the current index.  `Except.error msg` models
printing `msg` and returning `-1`; `Except.ok (dirPosition, globals)`
models a successful parse. -/
def set_args_loop : Args → Bool → Nat → Nat → List String → Except String (Nat × Args)
  | args, hasDir, dirPos, _, [] =>
    if hasDir then Except.ok (dirPos, args)
    else Except.error ("Usage: os-find [OPTIONS] DIRECTORY")
  | args, hasDir, dirPos, i, a :: rest =>
    if isFlag a then
      match rest with
      | [] => Except.error ("Option " ++ a ++ " is missing its value")
      | v :: rest2 =>
        if a = "-inum" then
          if args.inode_target ≠ 0 then Except.error ("Only one inode number can be specified")
          else match stoul v with
            | none => Except.error ("Bad -inum argument")
            | some n => set_args_loop { args with inode_target := n } hasDir dirPos (i + 2) rest2
        else if a = "-name" then
          if args.name_target ≠ "" then Except.error ("Only one file name can be specified")
          else set_args_loop { args with name_target := v } hasDir dirPos (i + 2) rest2
        else if a = "-size" then
          if args.size_mode ≠ SizeMode.NONE then Except.error ("Only one file size can be specified")
          else
            let m := modeChar v
            match stoi (if m.isSome then v.drop 1 else v) with
            | none => Except.error ("Bad -size argument")
            | some t =>
              set_args_loop { args with size_mode := m.getD args.size_mode, size_target := t }
                hasDir dirPos (i + 2) rest2
        else if a = "-nlinks" then
          if args.nlinks_target ≠ 0 then Except.error ("Only one hardlinks number can be specified")
          else match stoul v with
            | none => Except.error ("Bad -nlinks argument")
            | some n => set_args_loop { args with nlinks_target := n } hasDir dirPos (i + 2) rest2
        else if a = "-exec" then
          if args.exec_target ≠ "" then Except.error ("Only one execution target can be specified")
          else set_args_loop { args with exec_target := v } hasDir dirPos (i + 2) rest2
        else Except.error ("Unknown option used: " ++ a)
    else
      if hasDir then Except.error ("Only one directory can be specified")
      else set_args_loop args true i (i + 1) rest

/-- `set_args` (main.cpp:149-244): run the loop from index 1 on the
zero-initialised globals. -/
def set_args (argv : List String) : Except String (Nat × Args) :=
  set_args_loop initArgs false 0 1 (argv.drop 1)

/-- main.cpp:251-252: ensure the root path ends with `'/'`. -/
def withSlash (p : String) : String :=
  if p.toList.getLast? = some '/' then p else p ++ "/"

/-- The root directory as `open(argv[dirPosition], O_RDONLY | O_DIRECTORY)`
and the walk would see it. -/
structure RootDir where
  canOpen : Bool
  readError : Bool
  entries : Ents
deriving DecidableEq, Repr

/-- `main` (main.cpp:246-283) up to the point the result set is fixed:
`none` when the program returns before `visit` runs (argument errors,
unopenable root), otherwise the contents of the global `results` vector
after the walk. -/
def main (argv : List String) (root : RootDir) : Option (List String) :=
  match set_args argv with
  | Except.error _ => none
  | Except.ok (dirPos, args) =>
    let path := withSlash (argv.getD dirPos "")
    if root.canOpen then some (visit args path root.entries).1 else none

end OsFind

namespace OsFind

/-- The boolean decision of `matches` does not depend on the directory
path, which feeds only the error messages. -/
theorem matchesEntry_result_irrel (c : Args) (i : Nat) (n : String) (m : FileMeta)
    (p q : String) :
    (matchesEntry c i n m p).result = (matchesEntry c i n m q).result := by
  rcases m with ⟨co, fr⟩
  cases fr <;> (unfold matchesEntry; split_ifs <;> rfl)

/-- C1: for every configured size criterion and every file whose status
is successfully fetched, the size check of `matches` passes exactly on
these boundaries: LESS passes iff `size ≤ threshold`, EQUAL iff
`size = threshold`, GREATER iff `size ≥ threshold`; stated both for the
size `switch` itself (under any configuration) and for `matches` with a
size-only criterion. -/
theorem size_check_boundaries :
    (∀ (t s : Int),
      (sizeReject SizeMode.LESS t s = false ↔ s ≤ t)
      ∧ (sizeReject SizeMode.EQUAL t s = false ↔ s = t)
      ∧ (sizeReject SizeMode.GREATER t s = false ↔ t ≤ s))
    ∧ (∀ (t s : Int) (ino nl : Nat) (name path : String),
      ((matchesEntry ⟨0, "", SizeMode.LESS, t, 0, ""⟩ ino name ⟨true, some ⟨s, nl⟩⟩ path).result
          = true ↔ s ≤ t)
      ∧ ((matchesEntry ⟨0, "", SizeMode.EQUAL, t, 0, ""⟩ ino name ⟨true, some ⟨s, nl⟩⟩ path).result
          = true ↔ s = t)
      ∧ ((matchesEntry ⟨0, "", SizeMode.GREATER, t, 0, ""⟩ ino name ⟨true, some ⟨s, nl⟩⟩ path).result
          = true ↔ t ≤ s)) := by
  constructor
  · intro t s
    refine ⟨?_, ?_, ?_⟩ <;> simp [sizeReject]
  · intro t s ino nl name path
    refine ⟨?_, ?_, ?_⟩ <;>
      (unfold matchesEntry; simp only [sizeReject]; split_ifs <;> simp_all)

/-- C2 evaluation: `matches` never closes the descriptor it opens at
main.cpp:65; after a successful open, one descriptor opened by the call
is still open at return on every path (fstat failure, size rejection,
link-count rejection, and a successful match alike). -/
theorem matches_fd_leak :
    matchesEntry ⟨0, "", SizeMode.EQUAL, 100, 0, ""⟩ 5 "a" ⟨true, some ⟨100, 1⟩⟩ "r/"
      = ⟨true, 1, []⟩
    ∧ (matchesEntry ⟨0, "", SizeMode.EQUAL, 100, 0, ""⟩ 5 "a" ⟨true, none⟩ "r/").openFds = 1
    ∧ (matchesEntry ⟨0, "", SizeMode.EQUAL, 100, 0, ""⟩ 5 "a" ⟨true, some ⟨50, 1⟩⟩ "r/").openFds = 1
    ∧ (matchesEntry ⟨0, "", SizeMode.NONE, 0, 3, ""⟩ 5 "a" ⟨true, some ⟨50, 1⟩⟩ "r/").openFds = 1 :=
  ⟨rfl, rfl, rfl, rfl⟩

/-- C6: when neither a size comparison nor a link count is configured,
`matches` decides from the entry's inode and name alone: the result is
independent of any metadata and of the path, no descriptor is opened,
no error is printed, and the decision is exactly the inode and name
checks. -/
theorem matches_short_circuit (c : Args) (h1 : c.size_mode = SizeMode.NONE)
    (h2 : c.nlinks_target = 0) (ino : Nat) (name : String)
    (meta meta' : FileMeta) (path path' : String) :
    matchesEntry c ino name meta path = matchesEntry c ino name meta' path'
    ∧ (matchesEntry c ino name meta path).openFds = 0
    ∧ (matchesEntry c ino name meta path).errors = []
    ∧ ((matchesEntry c ino name meta path).result = true
        ↔ ((c.inode_target = 0 ∨ ino = c.inode_target)
            ∧ (c.name_target = "" ∨ name = c.name_target))) := by
  refine ⟨?_, ?_, ?_, ?_⟩ <;>
    (unfold matchesEntry; rw [h1, h2]; split_ifs <;> simp_all <;> tauto)

/-- C8: the pseudo-entries named "." and ".." are skipped before any
type dispatch: whatever their entry type, metadata, or subtree, the
walk of the remaining stream is unchanged — they reach neither the
filter, nor the result set, nor the recursion. -/
theorem dot_entries_skipped (c : Args) (path : String) (ino : Nat) (rest : Ents) :
    (∀ meta, visit c path (Ents.consFile ino "." meta rest) = visit c path rest)
    ∧ (∀ meta, visit c path (Ents.consFile ino ".." meta rest) = visit c path rest)
    ∧ (∀ canOp rErr sub, visit c path (Ents.consDir ino "." canOp rErr sub rest) = visit c path rest)
    ∧ (∀ canOp rErr sub, visit c path (Ents.consDir ino ".." canOp rErr sub rest) = visit c path rest)
    ∧ (∀ sub, visit c path (Ents.consOther ino "." sub rest) = visit c path rest)
    ∧ (∀ sub, visit c path (Ents.consOther ino ".." sub rest) = visit c path rest) := by
  refine ⟨fun _ => ?_, fun _ => ?_, fun _ _ _ => ?_, fun _ _ _ => ?_, fun _ => ?_, fun _ => ?_⟩ <;>
    simp [visit]

end OsFind

namespace OsFind

/-- C10: a `-size` value with no leading `-`/`=`/`+` that parses as a
number is accepted without any error: the loop continues with only
`size_target` updated (the mode stays whatever it was, `NONE` here), and
with mode `NONE` the traversal applies no size filtering at all — the
decision of `matches` is independent of both the file's size and the
stored numeric value. -/
theorem size_flag_without_mode_ignored :
    (∀ (args : Args) (hasDir : Bool) (dirPos i : Nat) (v : String) (rest : List String) (n : Int),
      args.size_mode = SizeMode.NONE → modeChar v = none → stoi v = some n →
      set_args_loop args hasDir dirPos i ("-size" :: v :: rest)
        = set_args_loop { args with size_target := n } hasDir dirPos (i + 2) rest)
    ∧ (∀ (c : Args), c.size_mode = SizeMode.NONE →
        ∀ (ino : Nat) (nm : String) (b : Bool) (s1 s2 : Int) (nl : Nat) (p : String),
        matchesEntry c ino nm ⟨b, some ⟨s1, nl⟩⟩ p = matchesEntry c ino nm ⟨b, some ⟨s2, nl⟩⟩ p)
    ∧ (∀ (c : Args), c.size_mode = SizeMode.NONE →
        ∀ (t : Int) (ino : Nat) (nm : String) (meta : FileMeta) (p : String),
        matchesEntry { c with size_target := t } ino nm meta p = matchesEntry c ino nm meta p) := by
  refine ⟨fun args hasDir dirPos i v rest n h1 h2 h3 => ?_, fun c h ino nm b s1 s2 nl p => ?_,
          fun c h t ino nm meta p => ?_⟩
  · have hf : isFlag "-size" = true := rfl
    simp [set_args_loop, hf, h1, h2, h3]
  · obtain ⟨ci, cn, cm, ct, cl, ce⟩ := c
    obtain rfl : cm = SizeMode.NONE := h
    rfl
  · obtain ⟨ci, cn, cm, ct, cl, ce⟩ := c
    obtain rfl : cm = SizeMode.NONE := h
    rfl

/-- Witness for `size_flag_without_mode_ignored` at concrete inputs:
`-size 100` with mode still unset, and size-independence of the
decision under mode `NONE`. -/
theorem size_flag_without_mode_ignored_w :
    set_args_loop initArgs false 0 1 ["-size", "100", "d"]
      = set_args_loop { initArgs with size_target := 100 } false 0 3 ["d"]
    ∧ matchesEntry initArgs 1 "a" ⟨true, some ⟨5, 1⟩⟩ "r/"
        = matchesEntry initArgs 1 "a" ⟨true, some ⟨6, 1⟩⟩ "r/"
    ∧ matchesEntry { initArgs with size_target := 42 } 1 "a" ⟨true, some ⟨5, 1⟩⟩ "r/"
        = matchesEntry initArgs 1 "a" ⟨true, some ⟨5, 1⟩⟩ "r/" :=
  ⟨size_flag_without_mode_ignored.1 initArgs false 0 1 "100" ["d"] 100 rfl rfl rfl,
   size_flag_without_mode_ignored.2.1 initArgs rfl 1 "a" true 5 6 1 "r/",
   size_flag_without_mode_ignored.2.2 initArgs rfl 42 1 "a" ⟨true, some ⟨5, 1⟩⟩ "r/"⟩

end OsFind

namespace OsFind

/-- The five options the parser knows (main.cpp:161-221). -/
def known5 (s : String) : Bool :=
  s = "-inum" || s = "-name" || s = "-size" || s = "-nlinks" || s = "-exec"

/-- The command line (arguments after the program name) contains, at a
position the loop treats as a flag position, a `-`-token that is none of
the five known options. -/
def hasUnknownFlag : List String → Bool
  | [] => false
  | [a] => isFlag a && !known5 a
  | a :: v :: r => if isFlag a then (!known5 a || hasUnknownFlag r) else hasUnknownFlag (v :: r)

/-- No token of the command line (arguments after the program name) sits
at a position the loop treats as the positional directory argument. -/
def noDirArg : List String → Bool
  | [] => true
  | [a] => isFlag a
  | a :: _ :: r => isFlag a && noDirArg r

/-- Whether a parse outcome is an error (`set_args` returned `-1`). -/
def isErr : Except String (Nat × Args) → Bool
  | Except.error _ => true
  | Except.ok _ => false

theorem isErr_exists {x : Except String (Nat × Args)} (h : isErr x = true) :
    ∃ e, x = Except.error e := by
  cases x with
  | error e => exact ⟨e, rfl⟩
  | ok p => simp [isErr] at h

/-- An unknown flag in flag position makes the loop fail, from any
intermediate state (either as an unknown option, or, when last, as an
option missing its value). -/
theorem loop_unknown : ∀ (l : List String) (args : Args) (hasDir : Bool) (dirPos i : Nat),
    hasUnknownFlag l = true → isErr (set_args_loop args hasDir dirPos i l) = true
  | [], _, _, _, _, h => by simp [hasUnknownFlag] at h
  | [a], args, hasDir, dp, i, h => by
      have hf : isFlag a = true := by
        simp [hasUnknownFlag, Bool.and_eq_true] at h
        exact h.1
      simp [set_args_loop, hf, isErr]
  | a :: v :: r, args, hasDir, dp, i, h => by
      by_cases hf : isFlag a = true
      · by_cases hk : known5 a = true
        · have hr : hasUnknownFlag r = true := by
            simpa [hasUnknownFlag, hf, hk] using h
          have hk' := hk
          simp only [known5, Bool.or_eq_true, decide_eq_true_eq] at hk'
          rcases hk' with ((((rfl | rfl) | rfl) | rfl) | rfl)
          · by_cases hdup : args.inode_target ≠ 0
            · simp [set_args_loop, hf, hdup, isErr]
            · cases hst : stoul v with
              | none => simp [set_args_loop, hf, hdup, hst, isErr]
              | some n =>
                have ih := loop_unknown r { args with inode_target := n } hasDir dp (i + 2) hr
                simpa [set_args_loop, hf, hdup, hst] using ih
          · by_cases hdup : args.name_target ≠ ""
            · simp [set_args_loop, hf, hdup, isErr]
            · have ih := loop_unknown r { args with name_target := v } hasDir dp (i + 2) hr
              simpa [set_args_loop, hf, hdup] using ih
          · by_cases hdup : args.size_mode ≠ SizeMode.NONE
            · simp [set_args_loop, hf, hdup, isErr]
            · cases hst : stoi (if (modeChar v).isSome then v.drop 1 else v) with
              | none => simp [set_args_loop, hf, hdup, hst, isErr]
              | some t =>
                have ih := loop_unknown r
                  { args with size_mode := (modeChar v).getD args.size_mode, size_target := t }
                  hasDir dp (i + 2) hr
                simpa [set_args_loop, hf, hdup, hst] using ih
          · by_cases hdup : args.nlinks_target ≠ 0
            · simp [set_args_loop, hf, hdup, isErr]
            · cases hst : stoul v with
              | none => simp [set_args_loop, hf, hdup, hst, isErr]
              | some n =>
                have ih := loop_unknown r { args with nlinks_target := n } hasDir dp (i + 2) hr
                simpa [set_args_loop, hf, hdup, hst] using ih
          · by_cases hdup : args.exec_target ≠ ""
            · simp [set_args_loop, hf, hdup, isErr]
            · have ih := loop_unknown r { args with exec_target := v } hasDir dp (i + 2) hr
              simpa [set_args_loop, hf, hdup] using ih
        · have hkf : known5 a = false := by simpa using hk
          simp only [known5, Bool.or_eq_false_iff, decide_eq_false_iff_not] at hkf
          obtain ⟨⟨⟨⟨h1, h2⟩, h3⟩, h4⟩, h5⟩ := hkf
          simp [set_args_loop, hf, h1, h2, h3, h4, h5, isErr]
      · have hf' : isFlag a = false := by simpa using hf
        have h' : hasUnknownFlag (v :: r) = true := by
          simpa [hasUnknownFlag, hf'] using h
        by_cases hd : hasDir
        · simp [set_args_loop, hf', hd, isErr]
        · have ih := loop_unknown (v :: r) args true i (i + 1) h'
          simpa [set_args_loop, hf', hd] using ih

/-- Without a directory argument the loop ends in an error, from any
state that has not yet seen a directory. -/
theorem loop_nodir : ∀ (l : List String) (args : Args) (dirPos i : Nat),
    noDirArg l = true → isErr (set_args_loop args false dirPos i l) = true
  | [], _, _, _, _ => by simp [set_args_loop, isErr]
  | [a], args, dp, i, h => by
      have hf : isFlag a = true := by simpa [noDirArg] using h
      simp [set_args_loop, hf, isErr]
  | a :: v :: r, args, dp, i, h => by
      have h' : isFlag a = true ∧ noDirArg r = true := by
        simpa [noDirArg, Bool.and_eq_true] using h
      obtain ⟨hf, hr⟩ := h'
      by_cases hk : known5 a = true
      · have hk' := hk
        simp only [known5, Bool.or_eq_true, decide_eq_true_eq] at hk'
        rcases hk' with ((((rfl | rfl) | rfl) | rfl) | rfl)
        · by_cases hdup : args.inode_target ≠ 0
          · simp [set_args_loop, hf, hdup, isErr]
          · cases hst : stoul v with
            | none => simp [set_args_loop, hf, hdup, hst, isErr]
            | some n =>
              have ih := loop_nodir r { args with inode_target := n } dp (i + 2) hr
              simpa [set_args_loop, hf, hdup, hst] using ih
        · by_cases hdup : args.name_target ≠ ""
          · simp [set_args_loop, hf, hdup, isErr]
          · have ih := loop_nodir r { args with name_target := v } dp (i + 2) hr
            simpa [set_args_loop, hf, hdup] using ih
        · by_cases hdup : args.size_mode ≠ SizeMode.NONE
          · simp [set_args_loop, hf, hdup, isErr]
          · cases hst : stoi (if (modeChar v).isSome then v.drop 1 else v) with
            | none => simp [set_args_loop, hf, hdup, hst, isErr]
            | some t =>
              have ih := loop_nodir r
                { args with size_mode := (modeChar v).getD args.size_mode, size_target := t }
                dp (i + 2) hr
              simpa [set_args_loop, hf, hdup, hst] using ih
        · by_cases hdup : args.nlinks_target ≠ 0
          · simp [set_args_loop, hf, hdup, isErr]
          · cases hst : stoul v with
            | none => simp [set_args_loop, hf, hdup, hst, isErr]
            | some n =>
              have ih := loop_nodir r { args with nlinks_target := n } dp (i + 2) hr
              simpa [set_args_loop, hf, hdup, hst] using ih
        · by_cases hdup : args.exec_target ≠ ""
          · simp [set_args_loop, hf, hdup, isErr]
          · have ih := loop_nodir r { args with exec_target := v } dp (i + 2) hr
            simpa [set_args_loop, hf, hdup] using ih
      · have hkf : known5 a = false := by simpa using hk
        simp only [known5, Bool.or_eq_false_iff, decide_eq_false_iff_not] at hkf
        obtain ⟨⟨⟨⟨h1, h2⟩, h3⟩, h4⟩, h5⟩ := hkf
        simp [set_args_loop, hf, h1, h2, h3, h4, h5, isErr]

theorem loop_dup_inum (args : Args) (hasDir : Bool) (dp i : Nat) (v : String)
    (rest : List String) (h : args.inode_target ≠ 0) :
    set_args_loop args hasDir dp i ("-inum" :: v :: rest)
      = Except.error ("Only one inode number can be specified") := by
  have hf : isFlag "-inum" = true := rfl
  simp [set_args_loop, hf, h]

theorem loop_dup_name (args : Args) (hasDir : Bool) (dp i : Nat) (v : String)
    (rest : List String) (h : args.name_target ≠ "") :
    set_args_loop args hasDir dp i ("-name" :: v :: rest)
      = Except.error ("Only one file name can be specified") := by
  have hf : isFlag "-name" = true := rfl
  simp [set_args_loop, hf, h]

theorem loop_dup_size (args : Args) (hasDir : Bool) (dp i : Nat) (v : String)
    (rest : List String) (h : args.size_mode ≠ SizeMode.NONE) :
    set_args_loop args hasDir dp i ("-size" :: v :: rest)
      = Except.error ("Only one file size can be specified") := by
  have hf : isFlag "-size" = true := rfl
  simp [set_args_loop, hf, h]

theorem loop_dup_nlinks (args : Args) (hasDir : Bool) (dp i : Nat) (v : String)
    (rest : List String) (h : args.nlinks_target ≠ 0) :
    set_args_loop args hasDir dp i ("-nlinks" :: v :: rest)
      = Except.error ("Only one hardlinks number can be specified") := by
  have hf : isFlag "-nlinks" = true := rfl
  simp [set_args_loop, hf, h]

theorem loop_dup_exec (args : Args) (hasDir : Bool) (dp i : Nat) (v : String)
    (rest : List String) (h : args.exec_target ≠ "") :
    set_args_loop args hasDir dp i ("-exec" :: v :: rest)
      = Except.error ("Only one execution target can be specified") := by
  have hf : isFlag "-exec" = true := rfl
  simp [set_args_loop, hf, h]

/-- C9 (amended): an unknown flag in flag position, a repeated flag
whose earlier occurrence left its tracked value non-sentinel (nonzero
`-inum`/`-nlinks`, nonempty `-name`/`-exec`, `-size` with a mode
prefix), or the absence of a directory argument each make `set_args`
fail with an error message, and any `set_args` failure makes `main`
return before the walker runs, with the result set empty. -/
theorem bad_cli_rejected :
    (∀ (argv : List String) (e : String) (root : RootDir),
        set_args argv = Except.error e → main argv root = none)
    ∧ (∀ argv : List String, hasUnknownFlag (argv.drop 1) = true →
        ∃ e, set_args argv = Except.error e)
    ∧ (∀ argv : List String, noDirArg (argv.drop 1) = true →
        ∃ e, set_args argv = Except.error e)
    ∧ (∀ (args : Args) (hasDir : Bool) (dp i : Nat) (v : String) (rest : List String),
        (args.inode_target ≠ 0 →
          set_args_loop args hasDir dp i ("-inum" :: v :: rest)
            = Except.error ("Only one inode number can be specified"))
        ∧ (args.name_target ≠ "" →
          set_args_loop args hasDir dp i ("-name" :: v :: rest)
            = Except.error ("Only one file name can be specified"))
        ∧ (args.size_mode ≠ SizeMode.NONE →
          set_args_loop args hasDir dp i ("-size" :: v :: rest)
            = Except.error ("Only one file size can be specified"))
        ∧ (args.nlinks_target ≠ 0 →
          set_args_loop args hasDir dp i ("-nlinks" :: v :: rest)
            = Except.error ("Only one hardlinks number can be specified"))
        ∧ (args.exec_target ≠ "" →
          set_args_loop args hasDir dp i ("-exec" :: v :: rest)
            = Except.error ("Only one execution target can be specified"))) := by
  refine ⟨fun argv e root hset => ?_, fun argv h => ?_, fun argv h => ?_,
          fun args hasDir dp i v rest =>
            ⟨loop_dup_inum args hasDir dp i v rest, loop_dup_name args hasDir dp i v rest,
             loop_dup_size args hasDir dp i v rest, loop_dup_nlinks args hasDir dp i v rest,
             loop_dup_exec args hasDir dp i v rest⟩⟩
  · simp [main, hset]
  · exact isErr_exists (loop_unknown (argv.drop 1) initArgs false 0 1 h)
  · exact isErr_exists (loop_nodir (argv.drop 1) initArgs 0 1 h)

/-- Witness for `bad_cli_rejected` at concrete command lines: an
unknown flag, a flag-only line without a directory, and a repeated
`-inum` after a nonzero first `-inum`. -/
theorem bad_cli_rejected_w :
    main ["os-find", "-zzz", "x", "d"] ⟨true, false, Ents.nil⟩ = none
    ∧ (∃ e, set_args ["os-find", "-zzz", "x", "d"] = Except.error e)
    ∧ (∃ e, set_args ["os-find", "-name", "x"] = Except.error e)
    ∧ set_args_loop ⟨5, "", SizeMode.NONE, 0, 0, ""⟩ false 0 1 ["-inum", "1", "d"]
        = Except.error ("Only one inode number can be specified") :=
  ⟨bad_cli_rejected.1 ["os-find", "-zzz", "x", "d"] "Unknown option used: -zzz"
      ⟨true, false, Ents.nil⟩ rfl,
   bad_cli_rejected.2.1 ["os-find", "-zzz", "x", "d"] rfl,
   bad_cli_rejected.2.2.1 ["os-find", "-name", "x"] rfl,
   (bad_cli_rejected.2.2.2 ⟨5, "", SizeMode.NONE, 0, 0, ""⟩ false 0 1 "1" ["d"]).1
     (by decide)⟩

/-- C9 counterexample: the command line
`os-find -inum 0 -inum 0 d` contains a duplicate occurrence of the
`-inum` flag, yet parsing succeeds (the duplicate test at main.cpp:162
compares against the sentinel `0`, which `-inum 0` leaves in place) and
the walker runs and produces results. -/
theorem bad_cli_dup_sentinel_cex :
    set_args ["os-find", "-inum", "0", "-inum", "0", "d"] = Except.ok (5, initArgs)
    ∧ main ["os-find", "-inum", "0", "-inum", "0", "d"]
        ⟨true, false, Ents.consFile 7 "a" ⟨true, some ⟨1, 1⟩⟩ Ents.nil⟩ = some ["d/a"] :=
  ⟨rfl, rfl⟩

end OsFind

namespace OsFind

/-- Witness for `matches_short_circuit`: with no size and no link-count
criterion configured, the decision ignores even a file that could not
be opened or stat'ed. -/
theorem matches_short_circuit_w :
    matchesEntry initArgs 1 "a" ⟨false, none⟩ "r/"
        = matchesEntry initArgs 1 "a" ⟨true, some ⟨9, 9⟩⟩ "x/"
    ∧ (matchesEntry initArgs 1 "a" ⟨false, none⟩ "r/").openFds = 0
    ∧ (matchesEntry initArgs 1 "a" ⟨false, none⟩ "r/").errors = []
    ∧ ((matchesEntry initArgs 1 "a" ⟨false, none⟩ "r/").result = true
        ↔ ((initArgs.inode_target = 0 ∨ 1 = initArgs.inode_target)
            ∧ (initArgs.name_target = "" ∨ "a" = initArgs.name_target))) :=
  matches_short_circuit initArgs rfl rfl 1 "a" ⟨false, none⟩ ⟨true, some ⟨9, 9⟩⟩ "r/" "x/"

end OsFind

namespace OsFind

theorem string_empty_append (s : String) : "" ++ s = s := rfl

/-- The walker's result list is exactly the pre-order listing of the
reachable regular files, filtered by the `matches` decision and
rendered as `path ++ relative_prefix ++ name`. -/
theorem visit_fst_eq (c : Args) : ∀ (path : String) (es : Ents),
    (visit c path es).1
      = ((preFiles es).filter (fun pf => matchesResult c pf)).map
          (fun pf => path ++ (dirsStr pf.dirs ++ pf.name)) := by
  intro path es
  induction es generalizing path with
  | nil => simp [visit, preFiles]
  | consFile ino name meta rest ih =>
    by_cases h : name = "." ∨ name = ".."
    · simp [visit, preFiles, h, ih]
    · have hres : (matchesEntry c ino name meta path).result
          = matchesResult c ⟨[], ino, name, meta⟩ :=
        matchesEntry_result_irrel c ino name meta path ""
      simp only [visit, preFiles, if_neg h]
      rw [List.filter_append, List.map_append, ih, hres]
      congr 1
      by_cases hm : matchesResult c ⟨[], ino, name, meta⟩ = true
      · simp [hm, dirsStr, string_empty_append]
      · simp [hm]
  | consDir ino name canOp rErr sub rest ihsub ihrest =>
    by_cases h : name = "." ∨ name = ".."
    · simp [visit, preFiles, h, ihrest]
    · by_cases hco : canOp
      · simp only [visit, preFiles, if_neg h, if_pos hco]
        rw [List.filter_append, List.map_append, ihrest]
        congr 1
        rw [List.filter_map, ihsub, List.map_map]
        have hpg : ((fun pf => matchesResult c pf) ∘
            (fun pf : PFile => (⟨name :: pf.dirs, pf.ino, pf.name, pf.meta⟩ : PFile)))
              = (fun pf => matchesResult c pf) := rfl
        rw [hpg]
        congr 1
        funext pf
        simp [dirsStr, String.append_assoc]
      · simp [visit, preFiles, if_neg h, hco, ihrest]
  | consOther ino name sub rest ihsub ihrest =>
    simp [visit, preFiles, ihrest]

/-- C7: matched paths appear in the result set exactly as the pre-order
listing of the stream prescribes — stream order, with the whole
recursive listing of a subdirectory inlined at the point its entry is
seen, filtered by the `matches` decision. -/
theorem results_preorder (c : Args) (path : String) (es : Ents) :
    (visit c path es).1
      = ((preFiles es).filter (fun pf => matchesResult c pf)).map
          (fun pf => path ++ (dirsStr pf.dirs ++ pf.name)) :=
  visit_fst_eq c path es

/-- C3 counterexample: with root argument `r` and a single matching
file `a`, the collected path is `r/a` — it carries the leading root
path instead of being the root-relative `a` the claim prescribes. -/
theorem results_not_root_relative_cex :
    main ["os-find", "r"] ⟨true, false, Ents.consFile 1 "a" ⟨true, some ⟨0, 1⟩⟩ Ents.nil⟩
      = some ["r/a"]
    ∧ ("r/a" : String) ≠ "a" :=
  ⟨rfl, by decide⟩

/-- C3 (amended): every path placed in the result set equals the
supplied root path (with a separator appended when missing) followed by
the relative directory prefix and the file name — entries carry the
leading root path. -/
theorem results_carry_root (argv : List String) (dirPos : Nat) (args : Args)
    (rErr : Bool) (es : Ents) (rs : List String)
    (hset : set_args argv = Except.ok (dirPos, args))
    (hm : main argv ⟨true, rErr, es⟩ = some rs) :
    ∀ r ∈ rs, ∃ pf ∈ preFiles es,
      matchesResult args pf = true
      ∧ r = withSlash (argv.getD dirPos "") ++ (dirsStr pf.dirs ++ pf.name) := by
  unfold main at hm
  rw [hset] at hm
  simp at hm
  intro r hr
  rw [← hm, visit_fst_eq] at hr
  simp only [List.mem_map, List.mem_filter] at hr
  obtain ⟨pf, ⟨hpf, hmatch⟩, heq⟩ := hr
  exact ⟨pf, hpf, hmatch, by simpa [List.getD] using heq.symm⟩

/-- Witness for `results_carry_root` on a one-file tree under root
argument `r`. -/
theorem results_carry_root_w :
    ∃ pf ∈ preFiles (Ents.consFile 1 "a" ⟨true, some ⟨0, 1⟩⟩ Ents.nil),
      matchesResult initArgs pf = true
      ∧ "r/a" = withSlash ((["os-find", "r"] : List String).getD 1 "")
          ++ (dirsStr pf.dirs ++ pf.name) :=
  results_carry_root ["os-find", "r"] 1 initArgs false
    (Ents.consFile 1 "a" ⟨true, some ⟨0, 1⟩⟩ Ents.nil) ["r/a"] rfl rfl "r/a" (by decide)

end OsFind

namespace OsFind

/-- Concatenation of two directory streams. -/
def entsAppend : Ents → Ents → Ents
  | Ents.nil, e2 => e2
  | Ents.consFile i n m r, e2 => Ents.consFile i n m (entsAppend r e2)
  | Ents.consDir i n co re s r, e2 => Ents.consDir i n co re s (entsAppend r e2)
  | Ents.consOther i n s r, e2 => Ents.consOther i n s (entsAppend r e2)

/-- The walk of a concatenated stream concatenates results and error
reports: processing one entry never aborts the remainder. -/
theorem visit_append (c : Args) (path : String) (e1 e2 : Ents) :
    visit c path (entsAppend e1 e2)
      = ((visit c path e1).1 ++ (visit c path e2).1,
         (visit c path e1).2 ++ (visit c path e2).2) := by
  induction e1 with
  | nil => simp [entsAppend, visit]
  | consFile i n m r ih =>
    by_cases h : n = "." ∨ n = ".."
    · simp [entsAppend, visit, h, ih]
    · simp [entsAppend, visit, h, ih]
  | consDir i n co re s r ihs ihr =>
    by_cases h : n = "." ∨ n = ".."
    · simp [entsAppend, visit, h, ihr]
    · by_cases hco : co
      · simp [entsAppend, visit, h, hco, ihr]
      · simp [entsAppend, visit, h, hco, ihr]
  | consOther i n s r ihs ihr =>
    simp [entsAppend, visit, ihr]

/-- C5: traversal I/O errors are local.  A subdirectory whose stream
read fails is reported, contributes exactly the entries it yielded
before the failure, and the siblings before and after it are processed
unchanged; a subdirectory that cannot be opened is reported and not
recursed into, and the walk continues with the next sibling. -/
theorem traversal_errors_local (c : Args) (path : String) (pre post sub : Ents)
    (ino : Nat) (name : String) (rErr : Bool)
    (h1 : name ≠ ".") (h2 : name ≠ "..") :
    ((visit c path (entsAppend pre (Ents.consDir ino name false rErr sub post))).1
        = (visit c path pre).1 ++ (visit c path post).1)
    ∧ (("Error reading contents of " ++ (path ++ name ++ "/"))
        ∈ (visit c path (entsAppend pre (Ents.consDir ino name false rErr sub post))).2)
    ∧ ((visit c path (entsAppend pre (Ents.consDir ino name true true sub post))).1
        = (visit c path pre).1 ++ ((visit c (path ++ name ++ "/") sub).1
            ++ (visit c path post).1))
    ∧ (("Error reading contents of " ++ (path ++ name ++ "/"))
        ∈ (visit c path (entsAppend pre (Ents.consDir ino name true true sub post))).2) := by
  have hdot : ¬(name = "." ∨ name = "..") := by
    rintro (h | h)
    exacts [h1 h, h2 h]
  refine ⟨?_, ?_, ?_, ?_⟩ <;>
    simp [visit_append, visit, hdot]

/-- Example streams used by concrete witnesses. -/
def exA : Ents := Ents.consFile 1 "x" ⟨true, some ⟨0, 1⟩⟩ Ents.nil

def exB : Ents := Ents.consFile 2 "y" ⟨true, some ⟨0, 1⟩⟩ Ents.nil

def exC : Ents := Ents.consFile 3 "z" ⟨true, some ⟨0, 1⟩⟩ Ents.nil

/-- Witness for `traversal_errors_local`: a failing directory `bad`
between files `x` and `y`, with subtree `z`. -/
theorem traversal_errors_local_w :
    ((visit initArgs "r/" (entsAppend exA (Ents.consDir 9 "bad" false false exC exB))).1
        = (visit initArgs "r/" exA).1 ++ (visit initArgs "r/" exB).1)
    ∧ (("Error reading contents of " ++ ("r/" ++ "bad" ++ "/"))
        ∈ (visit initArgs "r/" (entsAppend exA (Ents.consDir 9 "bad" false false exC exB))).2)
    ∧ ((visit initArgs "r/" (entsAppend exA (Ents.consDir 9 "bad" true true exC exB))).1
        = (visit initArgs "r/" exA).1 ++ ((visit initArgs ("r/" ++ "bad" ++ "/") exC).1
            ++ (visit initArgs "r/" exB).1))
    ∧ (("Error reading contents of " ++ ("r/" ++ "bad" ++ "/"))
        ∈ (visit initArgs "r/" (entsAppend exA (Ents.consDir 9 "bad" true true exC exB))).2) :=
  traversal_errors_local initArgs "r/" exA exB exC 9 "bad" false (by decide) (by decide)

end OsFind

namespace OsFind

/-- The names of the entries of one directory stream. -/
def entNames : Ents → List String
  | Ents.nil => []
  | Ents.consFile _ n _ r => n :: entNames r
  | Ents.consDir _ n _ _ _ r => n :: entNames r
  | Ents.consOther _ n _ r => n :: entNames r

/-- A well-formed file name contains no path separator. -/
def noSlash (s : String) : Bool := !(s.toList.contains '/')

/-- Well-formedness a real directory tree guarantees: within each
directory the entry names are pairwise distinct and contain no `/`,
recursively (for subtrees the walker can enter). -/
def entsWF : Ents → Bool
  | Ents.nil => true
  | Ents.consFile _ n _ r => noSlash n && !((entNames r).contains n) && entsWF r
  | Ents.consDir _ n _ _ sub r =>
      noSlash n && !((entNames r).contains n) && entsWF sub && entsWF r
  | Ents.consOther _ n _ r => noSlash n && !((entNames r).contains n) && entsWF r

/-- Character-level splitting: a first separator after a
separator-free block is unambiguous. -/
theorem slash_split : ∀ (a b u v : List Char), '/' ∉ a → '/' ∉ b →
    a ++ '/' :: u = b ++ '/' :: v → a = b ∧ u = v
  | [], [], u, v, _, _, h => by
      simp only [List.nil_append, List.cons.injEq] at h
      exact ⟨rfl, h.2⟩
  | [], c :: b, u, v, _, hb, h => by
      simp only [List.nil_append, List.cons_append, List.cons.injEq] at h
      exact absurd (h.1 ▸ List.mem_cons_self c b) hb
  | c :: a, [], u, v, ha, _, h => by
      simp only [List.nil_append, List.cons_append, List.cons.injEq] at h
      exact absurd (h.1.symm ▸ List.mem_cons_self c a) ha
  | c :: a, d :: b, u, v, ha, hb, h => by
      simp only [List.cons_append, List.cons.injEq] at h
      obtain ⟨rfl, h2⟩ := h
      obtain ⟨hab, huv⟩ := slash_split a b u v
        (fun hm => ha (List.mem_cons_of_mem _ hm))
        (fun hm => hb (List.mem_cons_of_mem _ hm)) h2
      exact ⟨by rw [hab], huv⟩

/-- `dirsStr` at the level of character lists. -/
def dirsChars : List (List Char) → List Char
  | [] => []
  | d :: ds => d ++ '/' :: dirsChars ds

theorem dirsStr_data (ds : List String) :
    (dirsStr ds).data = dirsChars (ds.map String.data) := by
  induction ds with
  | nil => rfl
  | cons d ds ih =>
    have hslash : ("/" : String).data = ['/'] := rfl
    simp [dirsStr, dirsChars, String.data_append, hslash, ih]

theorem dirsChars_inj : ∀ (d1 : List (List Char)) (n1 : List Char)
    (d2 : List (List Char)) (n2 : List Char),
    (∀ x ∈ d1, '/' ∉ x) → '/' ∉ n1 → (∀ x ∈ d2, '/' ∉ x) → '/' ∉ n2 →
    dirsChars d1 ++ n1 = dirsChars d2 ++ n2 → d1 = d2 ∧ n1 = n2
  | [], n1, [], n2, _, _, _, _, h => ⟨rfl, by simpa using h⟩
  | [], n1, d :: d2, n2, _, hn1, _, _, h => by
      exfalso
      apply hn1
      have h' : n1 = d ++ '/' :: (dirsChars d2 ++ n2) := by
        simpa [dirsChars, List.append_assoc] using h
      rw [h']
      exact List.mem_append_right d (List.mem_cons_self _ _)
  | d :: d1, n1, [], n2, _, _, _, hn2, h => by
      exfalso
      apply hn2
      have h' : n2 = d ++ '/' :: (dirsChars d1 ++ n1) := by
        simpa [dirsChars, List.append_assoc] using h.symm
      rw [h']
      exact List.mem_append_right d (List.mem_cons_self _ _)
  | x :: d1, n1, y :: d2, n2, hd1, hn1, hd2, hn2, h => by
      have h' : x ++ '/' :: (dirsChars d1 ++ n1) = y ++ '/' :: (dirsChars d2 ++ n2) := by
        simpa [dirsChars, List.append_assoc] using h
      obtain ⟨hxy, htail⟩ := slash_split x y _ _
        (hd1 x (List.mem_cons_self _ _)) (hd2 y (List.mem_cons_self _ _)) h'
      obtain ⟨hd, hn⟩ := dirsChars_inj d1 n1 d2 n2
        (fun z hz => hd1 z (List.mem_cons_of_mem _ hz)) hn1
        (fun z hz => hd2 z (List.mem_cons_of_mem _ hz)) hn2 htail
      exact ⟨by rw [hxy, hd], hn⟩

end OsFind

namespace OsFind

theorem noSlash_not_mem_data {s : String} (h : noSlash s = true) : '/' ∉ s.data := by
  simp [noSlash, String.toList] at h
  exact h

theorem dirs_name_inj (d1 : List String) (n1 : String) (d2 : List String) (n2 : String)
    (hd1 : ∀ x ∈ d1, noSlash x = true) (hn1 : noSlash n1 = true)
    (hd2 : ∀ x ∈ d2, noSlash x = true) (hn2 : noSlash n2 = true)
    (h : dirsStr d1 ++ n1 = dirsStr d2 ++ n2) : d1 = d2 ∧ n1 = n2 := by
  have hdata : dirsChars (d1.map String.data) ++ n1.data
      = dirsChars (d2.map String.data) ++ n2.data := by
    have hc := congrArg String.data h
    simpa [String.data_append, dirsStr_data] using hc
  obtain ⟨hd, hn⟩ := dirsChars_inj _ _ _ _
    (fun x hx => by
      obtain ⟨s, hs, rfl⟩ := List.mem_map.mp hx
      exact noSlash_not_mem_data (hd1 s hs))
    (noSlash_not_mem_data hn1)
    (fun x hx => by
      obtain ⟨s, hs, rfl⟩ := List.mem_map.mp hx
      exact noSlash_not_mem_data (hd2 s hs))
    (noSlash_not_mem_data hn2) hdata
  refine ⟨?_, String.ext hn⟩
  have hinj : Function.Injective String.data := fun a b hab => String.ext hab
  exact (List.map_injective_iff.mpr hinj) hd

/-- The key identifying a reachable file's position: its directory
chain and its name. -/
def pfKey (pf : PFile) : List String × String := (pf.dirs, pf.name)

theorem preFiles_headD : ∀ (es : Ents), ∀ pf ∈ preFiles es,
    pf.dirs.headD pf.name ∈ entNames es := by
  intro es
  induction es with
  | nil => intro pf h; simp [preFiles] at h
  | consFile ino n meta r ih =>
    intro pf h
    rcases List.mem_append.mp h with h1 | h2
    · by_cases hd : n = "." ∨ n = ".."
      · simp [hd] at h1
      · simp [hd] at h1
        subst h1
        simp [entNames]
    · exact List.mem_cons_of_mem _ (ih pf h2)
  | consDir ino n co re sub r ihsub ihr =>
    intro pf h
    rcases List.mem_append.mp h with h1 | h2
    · by_cases hd : n = "." ∨ n = ".."
      · simp [hd] at h1
      · by_cases hco : co
        · simp [hd, hco] at h1
          obtain ⟨pf', hpf', rfl⟩ := h1
          simp [entNames]
        · simp [hd, hco] at h1
    · exact List.mem_cons_of_mem _ (ihr pf h2)
  | consOther ino n sub r ihsub ihr =>
    intro pf h
    exact List.mem_cons_of_mem _ (ihr pf h)

end OsFind

namespace OsFind

theorem not_contains_not_mem {l : List String} {n : String}
    (h : (!(l.contains n)) = true) : n ∉ l := by
  simp at h
  exact h

theorem preKeys_nodup : ∀ (es : Ents), entsWF es = true →
    ((preFiles es).map pfKey).Nodup := by
  intro es
  induction es with
  | nil => simp [preFiles]
  | consFile ino n meta r ih =>
    intro h
    simp only [entsWF, Bool.and_eq_true] at h
    obtain ⟨⟨hns, hnc⟩, hwr⟩ := h
    by_cases hd : n = "." ∨ n = ".."
    · simpa [preFiles, hd] using ih hwr
    · simp only [preFiles, if_neg hd, List.singleton_append, List.map_cons]
      refine List.nodup_cons.mpr ⟨?_, ih hwr⟩
      intro hmem
      obtain ⟨pf, hpf, hkey⟩ := List.mem_map.mp hmem
      have hh := preFiles_headD r pf hpf
      have hdirs : pf.dirs = [] := congrArg Prod.fst hkey
      have hname : pf.name = n := congrArg Prod.snd hkey
      rw [hdirs, hname] at hh
      simp only [List.headD] at hh
      exact not_contains_not_mem hnc hh
  | consDir ino n co re sub r ihsub ihr =>
    intro h
    simp only [entsWF, Bool.and_eq_true] at h
    obtain ⟨⟨⟨hns, hnc⟩, hwsub⟩, hwr⟩ := h
    by_cases hd : n = "." ∨ n = ".."
    · simpa [preFiles, hd] using ihr hwr
    · by_cases hco : co
      · simp only [preFiles, if_neg hd, if_pos hco, List.map_append]
        rw [List.nodup_append]
        refine ⟨?_, ihr hwr, ?_⟩
        · rw [List.map_map]
          have hcomp : (pfKey ∘ fun pf : PFile =>
              (⟨n :: pf.dirs, pf.ino, pf.name, pf.meta⟩ : PFile))
                = (fun k : List String × String => (n :: k.1, k.2)) ∘ pfKey := rfl
          rw [hcomp, ← List.map_map]
          apply List.Nodup.map ?_ (ihsub hwsub)
          intro k1 k2 hk
          simp only [Prod.mk.injEq, List.cons.injEq, true_and] at hk
          exact Prod.ext hk.1 hk.2
        · intro x hx1 hx2
          obtain ⟨pf1, hpf1, hkey1⟩ := List.mem_map.mp hx1
          obtain ⟨pf0, hpf0, rfl⟩ := List.mem_map.mp hpf1
          obtain ⟨pf2, hpf2, hkey2⟩ := List.mem_map.mp hx2
          have hh := preFiles_headD r pf2 hpf2
          have hdirs : pf2.dirs = n :: pf0.dirs := by
            have := congrArg Prod.fst (hkey2.trans hkey1.symm)
            simpa [pfKey] using this
          rw [hdirs] at hh
          simp only [List.headD] at hh
          exact not_contains_not_mem hnc hh
      · simpa [preFiles, hd, hco] using ihr hwr
  | consOther ino n sub r ihsub ihr =>
    intro h
    simp only [entsWF, Bool.and_eq_true] at h
    obtain ⟨⟨hns, hnc⟩, hwr⟩ := h
    simpa [preFiles] using ihr hwr

end OsFind

namespace OsFind

theorem preFiles_noslash : ∀ (es : Ents), entsWF es = true → ∀ pf ∈ preFiles es,
    noSlash pf.name = true ∧ ∀ d ∈ pf.dirs, noSlash d = true := by
  intro es
  induction es with
  | nil => intro _ pf h; simp [preFiles] at h
  | consFile ino n meta r ih =>
    intro h pf hpf
    simp only [entsWF, Bool.and_eq_true] at h
    obtain ⟨⟨hns, hnc⟩, hwr⟩ := h
    rcases List.mem_append.mp hpf with h1 | h2
    · by_cases hd : n = "." ∨ n = ".."
      · simp [hd] at h1
      · simp [hd] at h1
        subst h1
        exact ⟨hns, by simp⟩
    · exact ih hwr pf h2
  | consDir ino n co re sub r ihsub ihr =>
    intro h pf hpf
    simp only [entsWF, Bool.and_eq_true] at h
    obtain ⟨⟨⟨hns, hnc⟩, hwsub⟩, hwr⟩ := h
    rcases List.mem_append.mp hpf with h1 | h2
    · by_cases hd : n = "." ∨ n = ".."
      · simp [hd] at h1
      · by_cases hco : co
        · simp [hd, hco] at h1
          obtain ⟨pf', hpf', rfl⟩ := h1
          obtain ⟨ha, hb⟩ := ihsub hwsub pf' hpf'
          refine ⟨ha, ?_⟩
          intro d hdm
          rcases List.mem_cons.mp hdm with rfl | hdm'
          · exact hns
          · exact hb d hdm'
        · simp [hd, hco] at h1
    · exact ihr hwr pf h2
  | consOther ino n sub r ihsub ihr =>
    intro h pf hpf
    simp only [entsWF, Bool.and_eq_true] at h
    obtain ⟨⟨hns, hnc⟩, hwr⟩ := h
    exact ihr hwr pf hpf

/-- With distinct, separator-free names in every directory, the result
list of the walk has no duplicates. -/
theorem visit_results_nodup (c : Args) (path : String) (es : Ents)
    (h : entsWF es = true) : ((visit c path es).1).Nodup := by
  rw [visit_fst_eq]
  have hsubl : ((preFiles es).filter (fun pf => matchesResult c pf)).Sublist (preFiles es) :=
    List.filter_sublist _
  have hkeys : (((preFiles es).filter (fun pf => matchesResult c pf)).map pfKey).Nodup :=
    (preKeys_nodup es h).sublist (hsubl.map pfKey)
  have hfac : (fun pf : PFile => path ++ (dirsStr pf.dirs ++ pf.name))
      = (fun k : List String × String => path ++ (dirsStr k.1 ++ k.2)) ∘ pfKey := rfl
  rw [hfac, ← List.map_map]
  apply List.Nodup.map_on ?_ hkeys
  intro k1 hk1 k2 hk2 heq
  obtain ⟨pf1, hpf1, rfl⟩ := List.mem_map.mp hk1
  obtain ⟨pf2, hpf2, rfl⟩ := List.mem_map.mp hk2
  have hcancel : dirsStr pf1.dirs ++ pf1.name = dirsStr pf2.dirs ++ pf2.name := by
    have hdata := congrArg String.data heq
    simp only [String.data_append] at hdata
    exact String.ext (by
      simpa [String.data_append] using List.append_cancel_left hdata)
  obtain hs1 := preFiles_noslash es h pf1 (hsubl.subset hpf1)
  obtain hs2 := preFiles_noslash es h pf2 (hsubl.subset hpf2)
  obtain ⟨hdeq, hneq⟩ := dirs_name_inj _ _ _ _ hs1.2 hs1.1 hs2.2 hs2.1 hcancel
  simp [pfKey, hdeq, hneq]

end OsFind

namespace OsFind

/-- The per-mode size acceptance the specification states: the check
passes iff actual size is `≤` / `=` / `≥` the threshold; no constraint
when no size criterion is set. -/
def sizeOk : SizeMode → Int → Int → Prop
  | SizeMode.NONE, _, _ => True
  | SizeMode.LESS, target, size => size ≤ target
  | SizeMode.EQUAL, target, size => size = target
  | SizeMode.GREATER, target, size => target ≤ size

theorem matches_and_semantics (c : Args) (d_ino : Nat) (d_name : String)
    (st : FileStat) (p : String) :
    (matchesEntry c d_ino d_name ⟨true, some st⟩ p).result = true
      ↔ ((c.inode_target = 0 ∨ d_ino = c.inode_target)
         ∧ (c.name_target = "" ∨ d_name = c.name_target)
         ∧ sizeOk c.size_mode c.size_target st.st_size
         ∧ (c.nlinks_target = 0 ∨ c.nlinks_target = st.st_nlink)) := by
  obtain ⟨ci, cn, cm, ct, cl, ce⟩ := c
  unfold matchesEntry
  cases cm <;>
    (simp only [sizeReject, sizeOk]; split_ifs <;> simp_all)
  all_goals tauto

end OsFind

namespace OsFind

/-- Example tree for the uniqueness witness. -/
def exTree : Ents :=
  Ents.consFile 1 "a" ⟨true, some ⟨0, 1⟩⟩
    (Ents.consDir 2 "d" true false (Ents.consFile 3 "a" ⟨true, some ⟨0, 1⟩⟩ Ents.nil)
      (Ents.consOther 4 "s" Ents.nil Ents.nil))

/-- C4: under the well-formedness every real directory tree
guarantees (distinct, separator-free names per directory), a path is
appended to the result set at most once, and only for entries of
regular-file type that the filter accepts; acceptance with fetched
metadata is exactly the conjunction of all configured criteria (AND
semantics); and entries of any other type are invisible — the walk of a
stream containing one equals the walk without it, whatever subtree it
points at. -/
theorem results_unique_regular_and (c : Args) :
    (∀ (path : String) (es : Ents), entsWF es = true →
      ((visit c path es).1).Nodup
      ∧ ∀ r ∈ (visit c path es).1, ∃ pf ∈ preFiles es,
          matchesResult c pf = true ∧ r = path ++ (dirsStr pf.dirs ++ pf.name))
    ∧ (∀ (path : String) (ino : Nat) (name : String) (sub rest : Ents),
        visit c path (Ents.consOther ino name sub rest) = visit c path rest)
    ∧ (∀ (d_ino : Nat) (d_name : String) (st : FileStat) (p : String),
        (matchesEntry c d_ino d_name ⟨true, some st⟩ p).result = true
          ↔ ((c.inode_target = 0 ∨ d_ino = c.inode_target)
             ∧ (c.name_target = "" ∨ d_name = c.name_target)
             ∧ sizeOk c.size_mode c.size_target st.st_size
             ∧ (c.nlinks_target = 0 ∨ c.nlinks_target = st.st_nlink))) := by
  refine ⟨fun path es h => ⟨visit_results_nodup c path es h, ?_⟩,
          fun path ino name sub rest => rfl, matches_and_semantics c⟩
  intro r hr
  rw [visit_fst_eq] at hr
  simp only [List.mem_map, List.mem_filter] at hr
  obtain ⟨pf, ⟨hpf, hm⟩, heq⟩ := hr
  exact ⟨pf, hpf, hm, heq.symm⟩

/-- Witness for `results_unique_regular_and` on a concrete tree with
two same-named files in different directories and an ignored
non-regular entry. -/
theorem results_unique_regular_and_w :
    ((visit initArgs "r/" exTree).1).Nodup
    ∧ ∀ r ∈ (visit initArgs "r/" exTree).1, ∃ pf ∈ preFiles exTree,
        matchesResult initArgs pf = true ∧ r = "r/" ++ (dirsStr pf.dirs ++ pf.name) :=
  (results_unique_regular_and initArgs).1 "r/" exTree (by decide)

end OsFind
